import Mathlib

/-!
# Verification of the Ferko schedule auto-fill engine

A shallow embedding of `src/userscripts/ferko-schedule-autofill.js`:
the schedule parser (`parseSchedule`), the slot locator
(`findMatchingDiv`), the assignment checker
(`isPersonAlreadyAssigned`), the dialog person finder
(`findPersonInDialog`), the polling waits (`waitForDialog`,
`waitForDialogClose`) and the batch processor (`processEvents`).

Strings are modelled as `List Char`.  The live DOM surface the
userscript observes is modelled explicitly: the editor region is a
list of `Div` records, the dialog is a list of candidate texts, and
the asynchronous appearance/disappearance of the dialog is an
environment-supplied visibility trace sampled at the poll ticks.
-/

namespace Ferko

/-- JavaScript `String.prototype.trim` whitespace (the characters that
occur in practice; the engine only meets ASCII input). -/
def isWS (c : Char) : Bool :=
  c == ' ' || c == '\t' || c == '\n' || c == '\r' || c == '\x0b' || c == '\x0c'

/-- JS `s.trim()` on a char-list string. -/
def jsTrim (l : List Char) : List Char :=
  ((l.dropWhile isWS).reverse.dropWhile isWS).reverse

/-- JS `s.split(sep)` for a single-character separator. -/
def splitOnChar (sep : Char) : List Char → List (List Char)
  | [] => [[]]
  | c :: rest =>
    match splitOnChar sep rest with
    | [] => [[]]
    | h :: t => if c == sep then [] :: h :: t else (c :: h) :: t

/-- `pat` occurs at the start of `l`. -/
def isStartOf : List Char → List Char → Bool
  | [], _ => true
  | _ :: _, [] => false
  | a :: as, b :: bs => a == b && isStartOf as bs

/-- JS `hay.includes(pat)`: substring containment. -/
def containsSub (hay pat : List Char) : Bool :=
  match hay with
  | [] => isStartOf pat []
  | _ :: rest => isStartOf pat hay || containsSub rest pat

/-- The regex fragment `(\d{4}-\d{2}-\d{2})`, matched at the start of
the input; returns the capture and the remaining input. -/
def takeFixedDate : List Char → Option (List Char × List Char)
  | a :: b :: c :: d :: e :: f :: g :: h :: i :: j :: rest =>
    if a.isDigit && b.isDigit && c.isDigit && d.isDigit && e == '-' &&
       f.isDigit && g.isDigit && h == '-' && i.isDigit && j.isDigit
    then some ([a, b, c, d, e, f, g, h, i, j], rest) else none
  | _ => none

/-- The regex fragment `(\d{2}:\d{2})`, matched at the start. -/
def takeTime : List Char → Option (List Char × List Char)
  | a :: b :: c :: d :: e :: rest =>
    if a.isDigit && b.isDigit && c == ':' && d.isDigit && e.isDigit
    then some ([a, b, c, d, e], rest) else none
  | _ => none

/-- The regex fragment `(A-?\d+)` with JS backtracking semantics:
an `A`, a greedy optional dash that is kept only when at least one
digit follows it, then a maximal nonempty digit run. -/
def takeRoom : List Char → Option (List Char × List Char)
  | [] => none
  | c :: rest =>
    if c == 'A' then
      match rest with
      | [] => none
      | r0 :: r2 =>
        if r0 == '-' then
          let p := r2.span Char.isDigit
          if p.1.isEmpty then none else some (c :: r0 :: p.1, p.2)
        else
          let p := rest.span Char.isDigit
          if p.1.isEmpty then none else some (c :: p.1, p.2)
    else none

/-- `entry.match(/^(\d{4}-\d{2}-\d{2})\|(\d{2}:\d{2})\|(\d{2}:\d{2})\|(A-?\d+)/)`
from `parseSchedule` (line 28): the four captures, `none` when the
regex does not match at the start of the entry. -/
def matchHeader (l : List Char) :
    Option (List Char × List Char × List Char × List Char) :=
  match takeFixedDate l with
  | none => none
  | some (d, l1) =>
    match l1 with
    | '|' :: l2 =>
      match takeTime l2 with
      | none => none
      | some (s, l3) =>
        match l3 with
        | '|' :: l4 =>
          match takeTime l4 with
          | none => none
          | some (e, l5) =>
            match l5 with
            | '|' :: l6 =>
              match takeRoom l6 with
              | none => none
              | some (r, _) => some (d, s, e, r)
            | _ => none
        | _ => none
    | _ => none

/-- `name.match(/^\d{4}-\d{2}-\d{2}/)` from the name lookahead
(line 32): the token begins with a date. -/
def startsWithDate (l : List Char) : Bool :=
  (takeFixedDate l).isSome

/-- JS `room.replace('-', '')`: remove the first dash only. -/
def replaceFirstDash : List Char → List Char
  | [] => []
  | c :: rest => if c == '-' then rest else c :: replaceFirstDash rest

/-- A parsed schedule event (the object pushed at lines 33-39). -/
structure Event where
  date : List Char
  startTime : List Char
  endTime : List Char
  room : List Char
  name : List Char
  deriving DecidableEq, Repr

/-- The inner token scan of `parseSchedule` (lines 25-43): on a header
match with a valid following name both tokens are consumed; on a
header match with an invalid or missing name only the header is
consumed; otherwise the token is skipped. -/
def parseEntries : List (List Char) → List Event
  | [] => []
  | e :: rest =>
    match matchHeader (jsTrim e) with
    | some (d, s, en, r) =>
      match rest with
      | [] => []
      | nTok :: rest2 =>
        let name := jsTrim nTok
        if !name.isEmpty && !startsWithDate name then
          { date := d, startTime := s, endTime := en,
            room := replaceFirstDash r, name := name } :: parseEntries rest2
        else
          parseEntries (nTok :: rest2)
    | none => parseEntries rest

/-- `parseSchedule` (lines 15-47): trim the input, split into lines,
drop blank lines, split each line on tabs dropping blank cells, and
scan the cells. -/
def parseSchedule (input : List Char) : List Event :=
  ((splitOnChar '\n' (jsTrim input)).filter
      (fun l => !(jsTrim l).isEmpty)).foldr
    (fun line acc =>
      parseEntries ((splitOnChar '\t' line).filter
        (fun e => !(jsTrim e).isEmpty)) ++ acc)
    []

/-! ## The UI surface model

The userscript reads the host page through a handful of queries.  We
model exactly the structure those queries observe: a slot element is
a `Div` with its visible text and an optional nested add control; the
add control carries the forward-sibling chain the assignment checker
walks (each sibling either holds the `ul` of assigned names - a list
of `li` texts - or does not). -/

/-- The add control (`span.ui-icon-plusthick`) of a slot, together
with the sibling chain of its enclosing div that
`isPersonAlreadyAssigned` walks. -/
structure Slot where
  siblings : List (Option (List (List Char)))
  deriving DecidableEq, Repr

/-- A div inside the editor region: its `textContent` and its nested
add control, when present. -/
structure Div where
  text : List Char
  addControl : Option Slot
  deriving DecidableEq, Repr

/-- The search pattern of `findMatchingDiv` (line 59):
`{date} {startTime} {endTime} {room}`. -/
def patternOf (ev : Event) : List Char :=
  ev.date ++ ' ' :: (ev.startTime ++ ' ' :: (ev.endTime ++ ' ' :: ev.room))

/-- The div loop of `findMatchingDiv` (lines 56-67): on a div whose
text contains the pattern, return its add control when present;
when the matching div has no add control the loop continues with the
later divs. -/
def scanDivs : List Div → List Char → Option Slot
  | [], _ => none
  | d :: rest, pat =>
    if containsSub d.text pat then
      match d.addControl with
      | some h => some h
      | none => scanDivs rest pat
    else scanDivs rest pat

/-- `findMatchingDiv` (lines 50-70): `none` when the editor region is
absent, otherwise the div scan over its divs in document order. -/
def findMatchingDiv (editor : Option (List Div)) (ev : Event) : Option Slot :=
  match editor with
  | none => none
  | some divs => scanDivs divs (patternOf ev)

/-- The name-matching heuristic shared verbatim by
`isPersonAlreadyAssigned` (lines 87-98) and `findPersonInDialog`
(lines 117-127): split the name on spaces; with two or more parts the
entry text must contain both the last part and the first part as
substrings; with one part, plain substring containment. -/
def nameMatches (name text : List Char) : Bool :=
  let parts := splitOnChar ' ' name
  if 2 ≤ parts.length then
    containsSub text parts.getLast! && containsSub text parts.head!
  else
    containsSub text name

/-- The sibling walk of `isPersonAlreadyAssigned` (lines 79-103):
advance over siblings without a `ul` of assigned people; on the first
sibling holding one, test every `li` text against the heuristic and
stop (the `break` at line 100). -/
def scanSiblings : List (Option (List (List Char))) → List Char → Bool
  | [], _ => false
  | none :: rest, name => scanSiblings rest name
  | some lis :: _, name => lis.any (fun t => nameMatches name t)

/-- `isPersonAlreadyAssigned` (lines 73-106). -/
def isPersonAlreadyAssigned (slot : Slot) (name : List Char) : Bool :=
  scanSiblings slot.siblings name

/-- `findPersonInDialog` (lines 108-131): `none` when the dialog
element is absent, otherwise the first candidate div whose text the
heuristic matches. -/
def findPersonInDialog (dialog : Option (List (List Char)))
    (name : List Char) : Option (List Char) :=
  match dialog with
  | none => none
  | some people => people.find? (fun t => nameMatches name t)

/-! ## The polling waits

`waitForDialog` and `waitForDialogClose` (lines 134-187) poll a
condition with `setInterval(..., 100)` under a 5000 ms timeout: at
tick `k` (time `100 * k` ms) the condition is tested first, and the
wait then rejects when `100 * k` exceeds the timeout.  So the wait
resolves exactly when the condition holds at some tick `k` with
`1 ≤ k ≤ timeout / interval + 1`, and otherwise rejects.  The
condition trace `Nat → Bool` is supplied by the environment - it is
the dialog's presence-and-visibility (resp. disappearance) sampled at
the poll ticks. -/

/-- The last tick the interval callback runs: the first tick whose
elapsed time `interval * k` exceeds `timeout`. -/
def pollTicks (interval timeout : Nat) : Nat := timeout / interval + 1

/-- Whether a polling wait resolves: the condition holds at some tick
in `1 .. pollTicks interval timeout`. -/
def waitSucceeds (cond : Nat → Bool) (interval timeout : Nat) : Bool :=
  (List.range (pollTicks interval timeout)).any (fun j => cond (j + 1))

/-- `waitForDialog` (lines 134-151) with its default 5000 ms timeout
and 100 ms poll interval: `true` iff the dialog is present and
visible at some poll tick in time. -/
def waitForDialog (visible : Nat → Bool) : Bool :=
  waitSucceeds visible 100 5000

/-- `waitForDialogClose` (lines 154-187) with its defaults: `true`
iff the dialog is observed gone (absent, or it or its wrapper hidden)
at some poll tick in time. -/
def waitForDialogClose (gone : Nat → Bool) : Bool :=
  waitSucceeds gone 100 5000

/-! ## The batch processor -/

/-- The classified result of one event (section 7 taxonomy). -/
inductive Outcome where
  | success
  | alreadyAssigned
  | slotNotFound
  | personNotFound
  | error (msg : List Char)
  deriving DecidableEq, Repr

/-- The `results` record of `processEvents` (lines 193-199). -/
structure Results where
  success : List (List Char)
  alreadyAssigned : List (List Char)
  slotNotFound : List (List Char)
  personNotFound : List (List Char)
  errors : List (List Char × List Char)
  deriving DecidableEq, Repr

def Results.empty : Results := ⟨[], [], [], [], []⟩

/-- `eventStr` (line 203): `{date} {start}-{end} {room} - {name}`. -/
def eventStr (ev : Event) : List Char :=
  ev.date ++ ' ' :: (ev.startTime ++ '-' ::
    (ev.endTime ++ ' ' :: (ev.room ++ ' ' :: '-' :: ' ' :: ev.name)))

/-- Record one event's outcome in the results (the `results.*.push`
calls; buckets keep processing order). -/
def addOutcome (s : List Char) : Outcome → Results → Results
  | .success, r => { r with success := s :: r.success }
  | .alreadyAssigned, r => { r with alreadyAssigned := s :: r.alreadyAssigned }
  | .slotNotFound, r => { r with slotNotFound := s :: r.slotNotFound }
  | .personNotFound, r => { r with personNotFound := s :: r.personNotFound }
  | .error msg, r => { r with errors := (s, msg) :: r.errors }

/-- `new Error('Dialog timeout').message` (line 147). -/
def dialogTimeoutMsg : List Char := "Dialog timeout".data

/-- `new Error('Dialog close timeout').message` (line 183). -/
def closeTimeoutMsg : List Char := "Dialog close timeout".data

/-- What the engine observes of the UI surface while processing one
event: the editor's divs at locate time, the dialog
presence-and-visibility trace after the add click, the dialog's
candidate texts, and the dialog-gone trace after the person click. -/
structure EventEnv where
  editor : Option (List Div)
  dialogVisible : Nat → Bool
  dialog : Option (List (List Char))
  closeGone : Nat → Bool

/-- The observable interactions of one event's processing, tagged
with the event's index. -/
inductive Action where
  | locate (i : Nat)
  | checkAssigned (i : Nat)
  | clickAdd (i : Nat)
  | waitOpen (i : Nat)
  | searchDialog (i : Nat)
  | clickPerson (i : Nat)
  | waitClose (i : Nat)
  deriving DecidableEq, Repr

/-- The per-event body of `processEvents` (lines 201-259): locate,
else `slotNotFound`; check assignment, skipping as
`alreadyAssigned`; click add and await the dialog, a timeout caught
as an `error` with its message; search the dialog, else
`personNotFound`; click the person and await the close, a timeout
caught as an `error`.  Also returns the interaction trace. -/
def processOne (env : EventEnv) (i : Nat) (ev : Event) :
    Outcome × List Action :=
  match findMatchingDiv env.editor ev with
  | none => (.slotNotFound, [.locate i])
  | some slot =>
    if isPersonAlreadyAssigned slot ev.name then
      (.alreadyAssigned, [.locate i, .checkAssigned i])
    else if !waitForDialog env.dialogVisible then
      (.error dialogTimeoutMsg,
        [.locate i, .checkAssigned i, .clickAdd i, .waitOpen i])
    else
      match findPersonInDialog env.dialog ev.name with
      | none =>
        (.personNotFound,
          [.locate i, .checkAssigned i, .clickAdd i, .waitOpen i,
           .searchDialog i])
      | some _ =>
        if waitForDialogClose env.closeGone then
          (.success,
            [.locate i, .checkAssigned i, .clickAdd i, .waitOpen i,
             .searchDialog i, .clickPerson i, .waitClose i])
        else
          (.error closeTimeoutMsg,
            [.locate i, .checkAssigned i, .clickAdd i, .waitOpen i,
             .searchDialog i, .clickPerson i, .waitClose i])

/-- `processEvents` (lines 190-263): events in input order, each
classified into exactly one bucket; the environment is indexed by the
event's position since the surface mutates between events. -/
def processEvents (env : Nat → EventEnv) : List Event → Nat → Results
  | [], _ => Results.empty
  | ev :: rest, i =>
    addOutcome (eventStr ev) (processOne (env i) i ev).1
      (processEvents env rest (i + 1))

/-- The interaction trace of a whole batch, events in input order. -/
def processTrace (env : Nat → EventEnv) : List Event → Nat → List Action
  | [], _ => []
  | ev :: rest, i => (processOne (env i) i ev).2 ++ processTrace env rest (i + 1)

/-! ## Spec-side definitions

Definitions that follow the specification's words rather than the
source, used to compare the two where they disagree. -/

/-- Follows the spec (section 4.2): a locator that considers only the
first element (in document order) whose text contains the pattern,
returning its nested add control when present and not-found
otherwise, never moving on to later matching elements. -/
def scanDivsSpec (divs : List Div) (pat : List Char) : Option Slot :=
  match divs.find? (fun d => containsSub d.text pat) with
  | none => none
  | some d => d.addControl

/-- Follows the spec (section 6): the room part of the slot-header
pattern written `[A-Za-z]-?\d+` - any ASCII letter, an optional dash,
then digits. -/
def takeRoomSpec : List Char → Option (List Char × List Char)
  | [] => none
  | c :: rest =>
    if c.isAlpha then
      match rest with
      | [] => none
      | r0 :: r2 =>
        if r0 == '-' then
          let p := r2.span Char.isDigit
          if p.1.isEmpty then none else some (c :: r0 :: p.1, p.2)
        else
          let p := rest.span Char.isDigit
          if p.1.isEmpty then none else some (c :: p.1, p.2)
    else none

/-- Follows the spec (section 6): a token matches the slot-header
pattern `^\d{4}-\d{2}-\d{2}\|\d{2}:\d{2}\|\d{2}:\d{2}\|[A-Za-z]-?\d+`
- like `matchHeader`, but with the room letter free. -/
def specHeaderMatches (l : List Char) : Bool :=
  match takeFixedDate l with
  | none => false
  | some (_, l1) =>
    match l1 with
    | '|' :: l2 =>
      match takeTime l2 with
      | none => false
      | some (_, l3) =>
        match l3 with
        | '|' :: l4 =>
          match takeTime l4 with
          | none => false
          | some (_, l5) =>
            match l5 with
            | '|' :: l6 => (takeRoomSpec l6).isSome
            | _ => false
        | _ => false
    | _ => false

/-! ## Token shapes

Decidable descriptions of the textual pieces a well-formed slot
header is assembled from, used to quantify over well-formed input
lines. -/

/-- A `YYYY-MM-DD` piece: ten characters, digits around dashes. -/
def dateShape (l : List Char) : Bool :=
  match l with
  | [a, b, c, d, e, f, g, h, i, j] =>
    a.isDigit && b.isDigit && c.isDigit && d.isDigit && e == '-' &&
    f.isDigit && g.isDigit && h == '-' && i.isDigit && j.isDigit
  | _ => false

/-- An `HH:MM` piece: five characters, digits around a colon. -/
def timeShape (l : List Char) : Bool :=
  match l with
  | [a, b, c, d, e] => a.isDigit && b.isDigit && c == ':' && d.isDigit && e.isDigit
  | _ => false

/-- A room piece the source's regex consumes whole: `A`, an optional
dash, then one or more digits and nothing after them. -/
def roomShape (l : List Char) : Bool :=
  takeRoom l == some (l, [])

/-- The characters a well-formed slot-header token is built from. -/
def headerChar (c : Char) : Bool :=
  c.isDigit || c == '-' || c == ':' || c == '|' || c == 'A'

/-- The five report sequences' entries, concatenated. -/
def outcomeLists (r : Results) : List (List Char) :=
  r.success ++ r.alreadyAssigned ++ r.slotNotFound ++ r.personNotFound ++
    r.errors.map Prod.fst

/-- The five report sequences, as a list of lists. -/
def buckets (r : Results) : List (List (List Char)) :=
  [r.success, r.alreadyAssigned, r.slotNotFound, r.personNotFound,
   r.errors.map Prod.fst]

/-! ## Character and string lemmas -/

theorem isWS_false_of_isDigit {a : Char} (h : a.isDigit = true) : isWS a = false := by
  by_contra hW
  rw [Bool.not_eq_false] at hW
  simp only [isWS, Bool.or_eq_true, beq_iff_eq] at hW
  rcases hW with ((((h1 | h1) | h1) | h1) | h1) | h1 <;> subst h1 <;>
    exact absurd h (by decide)

theorem isWS_false_of_headerChar {c : Char} (h : headerChar c = true) : isWS c = false := by
  simp only [headerChar, Bool.or_eq_true, beq_iff_eq] at h
  rcases h with (((h | h) | h) | h) | h
  · exact isWS_false_of_isDigit h
  all_goals (subst h; decide)

theorem ne_of_headerChar {c : Char} (h : headerChar c = true) :
    c ≠ '\n' ∧ c ≠ '\t' := by
  have hws := isWS_false_of_headerChar h
  constructor <;> rintro rfl <;> simp [isWS] at hws

theorem splitOnChar_ne_nil (sep : Char) (l : List Char) : splitOnChar sep l ≠ [] := by
  cases l with
  | nil => simp [splitOnChar]
  | cons c rest =>
    simp only [splitOnChar]
    rcases hr : splitOnChar sep rest with _ | ⟨h1, t⟩
    · simp
    · by_cases hc : (c == sep) = true <;> simp [hc]

theorem splitOnChar_no_sep {sep : Char} {l : List Char}
    (h : ∀ c ∈ l, c ≠ sep) : splitOnChar sep l = [l] := by
  induction l with
  | nil => rfl
  | cons c rest ih =>
    have hrest := ih (fun x hx => h x (List.mem_cons_of_mem _ hx))
    have hc : (c == sep) = false :=
      beq_eq_false_iff_ne.mpr (h c (List.mem_cons_self _ _))
    simp only [splitOnChar]
    rw [hrest]
    simp [hc]

theorem splitOnChar_append {sep : Char} {f rest : List Char}
    (h : ∀ c ∈ f, c ≠ sep) :
    splitOnChar sep (f ++ sep :: rest) = f :: splitOnChar sep rest := by
  induction f with
  | nil =>
    simp only [List.nil_append, splitOnChar]
    rcases hr : splitOnChar sep rest with _ | ⟨h1, t⟩
    · exact absurd hr (splitOnChar_ne_nil sep rest)
    · simp
  | cons c f' ih =>
    have hf' := ih (fun x hx => h x (List.mem_cons_of_mem _ hx))
    have hc : (c == sep) = false :=
      beq_eq_false_iff_ne.mpr (h c (List.mem_cons_self _ _))
    simp only [List.cons_append, splitOnChar, List.append_eq]
    rw [hf']
    simp [hc]

theorem dropWhile_eq_self_of_no_ws {l : List Char}
    (h : ∀ c ∈ l, isWS c = false) : l.dropWhile isWS = l := by
  cases l with
  | nil => rfl
  | cons c rest => rw [List.dropWhile_cons, h c (List.mem_cons_self _ _)]; simp

theorem jsTrim_eq_self_of_no_ws {l : List Char}
    (h : ∀ c ∈ l, isWS c = false) : jsTrim l = l := by
  unfold jsTrim
  rw [dropWhile_eq_self_of_no_ws h,
    dropWhile_eq_self_of_no_ws (fun c hc => h c (List.mem_reverse.mp hc)),
    List.reverse_reverse]

theorem dropWhile_cons_false {p : Char → Bool} {c : Char} {l : List Char}
    (h : p c = false) : (c :: l).dropWhile p = c :: l := by
  rw [List.dropWhile_cons, h]; simp

theorem jsTrim_eq_self_of_ends {l : List Char}
    (h1 : ∀ c, l.head? = some c → isWS c = false)
    (h2 : ∀ c, l.getLast? = some c → isWS c = false) : jsTrim l = l := by
  unfold jsTrim
  cases l with
  | nil => rfl
  | cons a t =>
    rw [dropWhile_cons_false (h1 a rfl)]
    rcases hrev : (a :: t).reverse with _ | ⟨b, rt⟩
    · exact absurd hrev (by simp)
    · have hb : (a :: t).getLast? = some b := by
        rw [List.getLast?_eq_head?_reverse, hrev]; rfl
      rw [dropWhile_cons_false (h2 b hb), ← hrev, List.reverse_reverse]

theorem head_false_of_dropWhile_self {p : Char → Bool} {a : Char} {t : List Char}
    (h : (a :: t).dropWhile p = a :: t) : p a = false := by
  by_contra hp
  rw [Bool.not_eq_false] at hp
  rw [List.dropWhile_cons, if_pos hp] at h
  have hlen := (List.dropWhile_sublist (l := t) p).length_le
  rw [h] at hlen
  simp at hlen

theorem dropWhile_eq_self_of_jsTrim {n : List Char} (h : jsTrim n = n) :
    n.dropWhile isWS = n := by
  have hsub := List.dropWhile_sublist (l := n) isWS
  apply hsub.eq_of_length
  apply Nat.le_antisymm hsub.length_le
  have h1 : (jsTrim n).length ≤ (n.dropWhile isWS).length := by
    unfold jsTrim
    calc ((((n.dropWhile isWS).reverse).dropWhile isWS).reverse).length
        = (((n.dropWhile isWS).reverse).dropWhile isWS).length := by
          rw [List.length_reverse]
      _ ≤ ((n.dropWhile isWS).reverse).length :=
          (List.dropWhile_sublist isWS).length_le
      _ = (n.dropWhile isWS).length := by rw [List.length_reverse]
  rw [h] at h1
  exact h1

theorem jsTrim_ends {n : List Char} (h : jsTrim n = n) :
    (∀ c, n.head? = some c → isWS c = false) ∧
    (∀ c, n.getLast? = some c → isWS c = false) := by
  have hdrop := dropWhile_eq_self_of_jsTrim h
  have hrev : n.reverse.dropWhile isWS = n.reverse := by
    have : jsTrim n = (n.reverse.dropWhile isWS).reverse := by
      unfold jsTrim; rw [hdrop]
    rw [h] at this
    calc n.reverse.dropWhile isWS
        = ((n.reverse.dropWhile isWS).reverse).reverse := by
          rw [List.reverse_reverse]
      _ = n.reverse := by rw [← this]
  constructor
  · intro c hc
    cases n with
    | nil => simp at hc
    | cons a t =>
      have : a = c := by simpa using hc
      subst this
      exact head_false_of_dropWhile_self hdrop
  · intro c hc
    rw [List.getLast?_eq_head?_reverse] at hc
    rcases hn : n.reverse with _ | ⟨b, rt⟩
    · rw [hn] at hc; simp at hc
    · rw [hn] at hc hrev
      have : b = c := by simpa using hc
      subst this
      exact head_false_of_dropWhile_self hrev

/-! ## Header-matcher lemmas -/

theorem dateShape_destruct {l : List Char} (h : dateShape l = true) :
    ∃ a b c d e f g i j k, l = [a, b, c, d, e, f, g, i, j, k] ∧
      a.isDigit = true ∧ b.isDigit = true ∧ c.isDigit = true ∧ d.isDigit = true ∧
      e = '-' ∧ f.isDigit = true ∧ g.isDigit = true ∧ i = '-' ∧
      j.isDigit = true ∧ k.isDigit = true := by
  rcases l with _ | ⟨a, l⟩; · exact absurd h (by decide)
  rcases l with _ | ⟨b, l⟩; · exact absurd h (by simp [dateShape])
  rcases l with _ | ⟨c, l⟩; · exact absurd h (by simp [dateShape])
  rcases l with _ | ⟨d, l⟩; · exact absurd h (by simp [dateShape])
  rcases l with _ | ⟨e, l⟩; · exact absurd h (by simp [dateShape])
  rcases l with _ | ⟨f, l⟩; · exact absurd h (by simp [dateShape])
  rcases l with _ | ⟨g, l⟩; · exact absurd h (by simp [dateShape])
  rcases l with _ | ⟨i, l⟩; · exact absurd h (by simp [dateShape])
  rcases l with _ | ⟨j, l⟩; · exact absurd h (by simp [dateShape])
  rcases l with _ | ⟨k, l⟩; · exact absurd h (by simp [dateShape])
  rcases l with _ | ⟨m, l⟩
  · simp only [dateShape, Bool.and_eq_true, beq_iff_eq] at h
    obtain ⟨⟨⟨⟨⟨⟨⟨⟨⟨h1, h2⟩, h3⟩, h4⟩, h5⟩, h6⟩, h7⟩, h8⟩, h9⟩, h10⟩ := h
    exact ⟨a, b, c, d, e, f, g, i, j, k, rfl, h1, h2, h3, h4, h5, h6, h7, h8, h9, h10⟩
  · exact absurd h (by simp [dateShape])

theorem timeShape_destruct {l : List Char} (h : timeShape l = true) :
    ∃ a b c d e, l = [a, b, c, d, e] ∧
      a.isDigit = true ∧ b.isDigit = true ∧ c = ':' ∧
      d.isDigit = true ∧ e.isDigit = true := by
  rcases l with _ | ⟨a, l⟩; · exact absurd h (by decide)
  rcases l with _ | ⟨b, l⟩; · exact absurd h (by simp [timeShape])
  rcases l with _ | ⟨c, l⟩; · exact absurd h (by simp [timeShape])
  rcases l with _ | ⟨d, l⟩; · exact absurd h (by simp [timeShape])
  rcases l with _ | ⟨e, l⟩; · exact absurd h (by simp [timeShape])
  rcases l with _ | ⟨m, l⟩
  · simp only [timeShape, Bool.and_eq_true, beq_iff_eq] at h
    obtain ⟨⟨⟨⟨h1, h2⟩, h3⟩, h4⟩, h5⟩ := h
    exact ⟨a, b, c, d, e, rfl, h1, h2, h3, h4, h5⟩
  · exact absurd h (by simp [timeShape])

theorem takeFixedDate_shape_append {d rest : List Char} (hd : dateShape d = true) :
    takeFixedDate (d ++ rest) = some (d, rest) := by
  obtain ⟨a, b, c, d', e, f, g, i, j, k, rfl,
    h1, h2, h3, h4, rfl, h6, h7, rfl, h9, h10⟩ := dateShape_destruct hd
  simp [takeFixedDate, h1, h2, h3, h4, h6, h7, h9, h10]

theorem takeTime_shape_append {s rest : List Char} (hs : timeShape s = true) :
    takeTime (s ++ rest) = some (s, rest) := by
  obtain ⟨a, b, c, d, e, rfl, h1, h2, rfl, h4, h5⟩ := timeShape_destruct hs
  simp [takeTime, h1, h2, h4, h5]

theorem roomShape_takeRoom {r : List Char} (hr : roomShape r = true) :
    takeRoom r = some (r, []) := by
  rw [roomShape, beq_iff_eq] at hr
  exact hr

/-- The captured room is an `A` followed, possibly after one dash,
by a nonempty run of digits. -/
theorem takeRoom_output {l r rest : List Char} (h : takeRoom l = some (r, rest)) :
    ∃ ds, ds ≠ [] ∧ (∀ c ∈ ds, c.isDigit = true) ∧
      (r = 'A' :: ds ∨ r = 'A' :: '-' :: ds) := by
  rcases l with _ | ⟨c, l⟩
  · exact absurd h (by simp [takeRoom])
  simp only [takeRoom] at h
  by_cases hc : (c == 'A') = true
  · rw [if_pos hc] at h
    rw [beq_iff_eq] at hc
    subst hc
    rcases l with _ | ⟨r0, r2⟩
    · exact absurd h (by simp)
    dsimp only at h
    by_cases h0 : (r0 == '-') = true
    · rw [if_pos h0] at h
      rw [beq_iff_eq] at h0
      subst h0
      by_cases hemp : (List.span Char.isDigit r2).1.isEmpty = true
      · rw [if_pos hemp] at h; exact absurd h (by simp)
      · rw [if_neg hemp] at h
        refine ⟨(List.span Char.isDigit r2).1, ?_, ?_, ?_⟩
        · intro hnil
          rw [hnil] at hemp
          exact hemp rfl
        · intro x hx
          rw [List.span_eq_take_drop] at hx
          exact List.mem_takeWhile_imp hx
        · right
          have := congrArg Prod.fst (Option.some.inj h)
          simp at this
          rw [← this]
          simp [List.span_eq_take_drop]
    · rw [if_neg h0] at h
      by_cases hemp : (List.span Char.isDigit (r0 :: r2)).1.isEmpty = true
      · rw [if_pos hemp] at h; exact absurd h (by simp)
      · rw [if_neg hemp] at h
        refine ⟨(List.span Char.isDigit (r0 :: r2)).1, ?_, ?_, ?_⟩
        · intro hnil
          rw [hnil] at hemp
          exact hemp rfl
        · intro x hx
          rw [List.span_eq_take_drop] at hx
          exact List.mem_takeWhile_imp hx
        · left
          have := congrArg Prod.fst (Option.some.inj h)
          simp at this
          rw [← this]
          simp [List.span_eq_take_drop]
  · rw [if_neg hc] at h
    exact absurd h (by simp)

/-- On the whole well-formed header token the source's regex matches
with exactly the four expected captures. -/
theorem matchHeader_shape {d s e r : List Char}
    (hd : dateShape d = true) (hs : timeShape s = true)
    (he : timeShape e = true) (hr : roomShape r = true) :
    matchHeader (d ++ '|' :: (s ++ '|' :: (e ++ '|' :: r))) = some (d, s, e, r) := by
  simp only [matchHeader, takeFixedDate_shape_append hd, takeTime_shape_append hs,
    takeTime_shape_append he, roomShape_takeRoom hr]

/-- A header-shaped token whose room letter is not `A` is rejected by
the source's regex. -/
theorem matchHeader_not_A {d s e : List Char} {c : Char} {ds : List Char}
    (hd : dateShape d = true) (hs : timeShape s = true)
    (he : timeShape e = true) (hc : (c == 'A') = false) :
    matchHeader (d ++ '|' :: (s ++ '|' :: (e ++ '|' :: (c :: ds)))) = none := by
  have hroom : takeRoom (c :: ds) = none := by
    simp only [takeRoom]
    rw [if_neg (by simp [hc] : ¬(c == 'A') = true)]
  simp only [matchHeader, takeFixedDate_shape_append hd, takeTime_shape_append hs,
    takeTime_shape_append he, hroom]

theorem startsWithDate_of_matchHeader {l : List Char} {x}
    (h : matchHeader l = some x) : startsWithDate l = true := by
  rw [startsWithDate]
  rcases hfd : takeFixedDate l with _ | p
  · rw [matchHeader, hfd] at h
    exact absurd h (by simp)
  · simp

/-! ## Parser step lemmas -/

theorem parseEntries_skip {e : List Char} {rest : List (List Char)}
    (h : matchHeader (jsTrim e) = none) :
    parseEntries (e :: rest) = parseEntries rest := by
  simp only [parseEntries, h]

theorem parseEntries_header_alone {e : List Char} {x}
    (h : matchHeader (jsTrim e) = some x) : parseEntries [e] = [] := by
  obtain ⟨d, s, en, r⟩ := x
  simp only [parseEntries, h]

theorem parseEntries_invalid_name {e n : List Char} {rest : List (List Char)} {x}
    (h : matchHeader (jsTrim e) = some x)
    (hn : (jsTrim n).isEmpty = true ∨ startsWithDate (jsTrim n) = true) :
    parseEntries (e :: n :: rest) = parseEntries (n :: rest) := by
  obtain ⟨d, s, en, r⟩ := x
  have hcond : (!(jsTrim n).isEmpty && !startsWithDate (jsTrim n)) = false := by
    rcases hn with hn | hn <;> simp [hn]
  rw [parseEntries.eq_def]
  dsimp only
  rw [h]
  dsimp only
  rw [hcond]
  simp

theorem parseEntries_valid {e n : List Char} {rest : List (List Char)} {d s en r}
    (h : matchHeader (jsTrim e) = some (d, s, en, r))
    (h1 : (jsTrim n).isEmpty = false) (h2 : startsWithDate (jsTrim n) = false) :
    parseEntries (e :: n :: rest) =
      { date := d, startTime := s, endTime := en,
        room := replaceFirstDash r, name := jsTrim n } :: parseEntries rest := by
  rw [parseEntries.eq_def]
  dsimp only
  rw [h]
  dsimp only
  rw [h1, h2]
  simp

/-! ## Character-set facts about well-formed header pieces -/

theorem dateShape_chars {d : List Char} (h : dateShape d = true) :
    ∀ c ∈ d, headerChar c = true := by
  obtain ⟨a, b, c1, d1, e1, f1, g1, i1, j1, k1, rfl,
    h1, h2, h3, h4, rfl, h5, h6, rfl, h7, h8⟩ := dateShape_destruct h
  intro c hc
  simp only [List.mem_cons, List.not_mem_nil, or_false] at hc
  rcases hc with rfl | rfl | rfl | rfl | rfl | rfl | rfl | rfl | rfl | rfl <;>
    simp [headerChar, h1, h2, h3, h4, h5, h6, h7, h8]

theorem timeShape_chars {s : List Char} (h : timeShape s = true) :
    ∀ c ∈ s, headerChar c = true := by
  obtain ⟨a, b, c1, d1, e1, rfl, h1, h2, rfl, h4, h5⟩ := timeShape_destruct h
  intro c hc
  simp only [List.mem_cons, List.not_mem_nil, or_false] at hc
  rcases hc with rfl | rfl | rfl | rfl | rfl <;> simp [headerChar, h1, h2, h4, h5]

theorem roomShape_chars {r : List Char} (h : roomShape r = true) :
    ∀ c ∈ r, headerChar c = true := by
  obtain ⟨ds, hne, hdig, hor⟩ := takeRoom_output (roomShape_takeRoom h)
  intro c hc
  rcases hor with rfl | rfl
  · rcases List.mem_cons.mp hc with rfl | hc
    · decide
    · simp [headerChar, hdig c hc]
  · rcases List.mem_cons.mp hc with rfl | hc
    · decide
    rcases List.mem_cons.mp hc with rfl | hc
    · decide
    · simp [headerChar, hdig c hc]

theorem headerChars {d s e r : List Char}
    (hd : dateShape d = true) (hs : timeShape s = true)
    (he : timeShape e = true) (hr : roomShape r = true) :
    ∀ c ∈ d ++ '|' :: (s ++ '|' :: (e ++ '|' :: r)), headerChar c = true := by
  intro c hc
  rcases List.mem_append.mp hc with hc | hc
  · exact dateShape_chars hd c hc
  rcases List.mem_cons.mp hc with rfl | hc
  · decide
  rcases List.mem_append.mp hc with hc | hc
  · exact timeShape_chars hs c hc
  rcases List.mem_cons.mp hc with rfl | hc
  · decide
  rcases List.mem_append.mp hc with hc | hc
  · exact timeShape_chars he c hc
  rcases List.mem_cons.mp hc with rfl | hc
  · decide
  exact roomShape_chars hr c hc

theorem dateShape_ne_nil {d : List Char} (h : dateShape d = true) : d ≠ [] := by
  obtain ⟨a, _, _, _, _, _, _, _, _, _, rfl, _⟩ := dateShape_destruct h
  simp

/-- A well-formed single line `header TAB name` parses to exactly the
one expected event. -/
theorem parse_single_line {d s e r n : List Char}
    (hd : dateShape d = true) (hs : timeShape s = true) (he : timeShape e = true)
    (hr : roomShape r = true) (hn : n ≠ []) (hnt : jsTrim n = n)
    (hnd : startsWithDate n = false) (ht : '\t' ∉ n) (hl : '\n' ∉ n) :
    parseSchedule ((d ++ '|' :: (s ++ '|' :: (e ++ '|' :: r))) ++ '\t' :: n) =
      [{ date := d, startTime := s, endTime := e,
         room := replaceFirstDash r, name := n }] := by
  have hhc := headerChars hd hs he hr
  set hdr := d ++ '|' :: (s ++ '|' :: (e ++ '|' :: r)) with hdr_def
  set L := hdr ++ '\t' :: n with L_def
  obtain ⟨a, b2, c1, d1, e1, f1, g1, i1, j1, k1, hdeq, ha, _⟩ := dateShape_destruct hd
  have hdrne : hdr ≠ [] := by
    rw [hdr_def]
    exact List.append_ne_nil_of_left_ne_nil (dateShape_ne_nil hd) _
  -- the whole line survives the outer trim
  have hhead : ∀ c, L.head? = some c → isWS c = false := by
    intro c hc
    rw [L_def, List.head?_append, hdr_def, List.head?_append, hdeq] at hc
    simp only [List.head?_cons, Option.or_some, Option.some.injEq] at hc
    subst hc
    exact isWS_false_of_isDigit ha
  have hlast : ∀ c, L.getLast? = some c → isWS c = false := by
    intro c hc
    have hgl : n.getLast? = some c := by
      rw [L_def, List.getLast?_append] at hc
      have hgn : ('\t' :: n).getLast? = n.getLast? := by
        rw [show '\t' :: n = ['\t'] ++ n from rfl, List.getLast?_append]
        rcases hx : n.getLast? with _ | y
        · rw [List.getLast?_eq_none_iff] at hx
          exact absurd hx hn
        · simp [hx]
      rw [hgn] at hc
      rcases hx : n.getLast? with _ | y
      · rw [List.getLast?_eq_none_iff] at hx
        exact absurd hx hn
      · rw [hx, Option.or_some] at hc
        exact hc
    exact (jsTrim_ends hnt).2 c hgl
  have htrimL : jsTrim L = L := jsTrim_eq_self_of_ends hhead hlast
  -- no newline anywhere in the line
  have hnoNL : ∀ c ∈ L, c ≠ '\n' := by
    intro c hc
    rw [L_def] at hc
    rcases List.mem_append.mp hc with hc | hc
    · exact (ne_of_headerChar (hhc c hc)).1
    rcases List.mem_cons.mp hc with rfl | hc
    · decide
    · intro h2; subst h2; exact hl hc
  -- no tab in the header
  have hnoTabHdr : ∀ c ∈ hdr, c ≠ '\t' := fun c hc =>
    (ne_of_headerChar (hhc c hc)).2
  have htrimHdr : jsTrim hdr = hdr :=
    jsTrim_eq_self_of_no_ws (fun c hc => isWS_false_of_headerChar (hhc c hc))
  -- evaluate the parse
  have hfl : (!(jsTrim L).isEmpty) = true := by
    rw [htrimL]
    simp only [Bool.not_eq_true', List.isEmpty_eq_false]
    rw [L_def]
    exact List.append_ne_nil_of_left_ne_nil hdrne _
  have hfh : (!(jsTrim hdr).isEmpty) = true := by
    rw [htrimHdr]
    simp only [Bool.not_eq_true', List.isEmpty_eq_false]
    exact hdrne
  have hfn : (!(jsTrim n).isEmpty) = true := by
    rw [hnt]
    simp only [Bool.not_eq_true', List.isEmpty_eq_false]
    exact hn
  rw [parseSchedule, htrimL, splitOnChar_no_sep hnoNL]
  rw [show List.filter (fun l => !(jsTrim l).isEmpty) [L] = [L] from by
    simp only [List.filter_cons, hfl, if_true, List.filter_nil]]
  rw [List.foldr_cons, List.foldr_nil, List.append_nil]
  rw [show L = hdr ++ '\t' :: n from L_def, splitOnChar_append hnoTabHdr,
    splitOnChar_no_sep (fun c hc h2 => ht (by rw [← h2]; exact hc))]
  rw [show List.filter (fun e => !(jsTrim e).isEmpty) [hdr, n] = [hdr, n] from by
    simp only [List.filter_cons, hfh, hfn, if_true, List.filter_nil]]
  have hmh : matchHeader (jsTrim hdr) = some (d, s, e, r) := by
    rw [htrimHdr, hdr_def]
    exact matchHeader_shape hd hs he hr
  rw [parseEntries_valid hmh (by rw [hnt]; exact List.isEmpty_eq_false.mpr hn)
    (by rw [hnt]; exact hnd)]
  rw [hnt]
  rfl

theorem matchHeader_room_output {l : List Char} {d s e r}
    (h : matchHeader l = some (d, s, e, r)) :
    ∃ ds, ds ≠ [] ∧ (∀ c ∈ ds, c.isDigit = true) ∧
      (r = 'A' :: ds ∨ r = 'A' :: '-' :: ds) := by
  rw [matchHeader.eq_def] at h
  repeat' split at h
  all_goals simp at h
  rename_i r1 rest1 heq
  obtain ⟨rfl, rfl, rfl, rfl⟩ := h
  obtain ⟨ds, h1, h2, h3⟩ := takeRoom_output heq
  exact ⟨ds, h1, h2, h3⟩

theorem replaceFirstDash_no_dash {l : List Char}
    (h : ∀ c ∈ l, c.isDigit = true) : replaceFirstDash l = l := by
  induction l with
  | nil => rfl
  | cons c rest ih =>
    have hc : (c == '-') = false := by
      have hd := h c (List.mem_cons_self _ _)
      rw [beq_eq_false_iff_ne]
      rintro rfl
      exact absurd hd (by decide)
    rw [replaceFirstDash, hc]
    simp [ih (fun x hx => h x (List.mem_cons_of_mem _ hx))]

theorem replaceFirstDash_room {r : List Char} {d s e l : List Char}
    (hm : matchHeader l = some (d, s, e, r)) :
    ∃ ds, ds ≠ [] ∧ (∀ c ∈ ds, c.isDigit = true) ∧
      replaceFirstDash r = 'A' :: ds := by
  obtain ⟨ds, h1, h2, h3 | h3⟩ := matchHeader_room_output hm
  · subst h3
    refine ⟨ds, h1, h2, ?_⟩
    rw [replaceFirstDash]
    simp [replaceFirstDash_no_dash h2]
  · subst h3
    refine ⟨ds, h1, h2, ?_⟩
    rw [replaceFirstDash]
    simp [replaceFirstDash]

/-- Every event produced by the token scan has an all-digit `A` room
with no dash, and a nonempty name that does not begin with a date. -/
theorem parseEntries_event_shape {entries : List (List Char)} {ev : Event}
    (h : ev ∈ parseEntries entries) :
    (∃ ds, ds ≠ [] ∧ (∀ c ∈ ds, c.isDigit = true) ∧ ev.room = 'A' :: ds) ∧
    ev.name ≠ [] ∧ startsWithDate ev.name = false := by
  induction entries using parseEntries.induct with
  | case1 => simp [parseEntries] at h
  | case2 e d s en r hm =>
    rw [parseEntries_header_alone hm] at h
    simp at h
  | case3 e d s en r hm nTok t nm hcond ih =>
    have hcond2 : (!(jsTrim nTok).isEmpty && !startsWithDate (jsTrim nTok)) = true := hcond
    simp only [Bool.and_eq_true, Bool.not_eq_true', List.isEmpty_eq_false] at hcond2
    obtain ⟨hc1, hc2⟩ := hcond2
    rw [parseEntries_valid hm (List.isEmpty_eq_false.mpr hc1) hc2] at h
    rcases List.mem_cons.mp h with rfl | h
    · refine ⟨replaceFirstDash_room hm, hc1, hc2⟩
    · exact ih h
  | case4 e d s en r hm nTok t nm hcond ih =>
    have hcond2 : ¬(!(jsTrim nTok).isEmpty && !startsWithDate (jsTrim nTok)) = true := hcond
    simp only [Bool.and_eq_true, Bool.not_eq_true', List.isEmpty_eq_false, not_and_or,
      not_not] at hcond2
    have hor : (jsTrim nTok).isEmpty = true ∨ startsWithDate (jsTrim nTok) = true := by
      rcases hcond2 with hc | hc
      · left
        rw [List.isEmpty_iff]
        exact hc
      · right
        simp at hc
        exact hc
    rw [parseEntries_invalid_name hm hor] at h
    exact ih h
  | case5 e t hm ih =>
    rw [parseEntries_skip hm] at h
    exact ih h

theorem mem_foldr_parse {lines : List (List Char)} {ev : Event}
    (h : ev ∈ lines.foldr (fun line acc =>
      parseEntries ((splitOnChar '\t' line).filter
        (fun e => !(jsTrim e).isEmpty)) ++ acc) []) :
    ∃ line ∈ lines, ev ∈ parseEntries ((splitOnChar '\t' line).filter
      (fun e => !(jsTrim e).isEmpty)) := by
  induction lines with
  | nil => simp at h
  | cons l ls ih =>
    rw [List.foldr_cons] at h
    rcases List.mem_append.mp h with h | h
    · exact ⟨l, List.mem_cons_self _ _, h⟩
    · obtain ⟨line, hmem, hev⟩ := ih h
      exact ⟨line, List.mem_cons_of_mem _ hmem, hev⟩

/-! ## The name-matching heuristic on two-part names -/

theorem nameMatches_two_parts {f l text : List Char}
    (hf : f ≠ []) (hl : l ≠ []) (hfs : ' ' ∉ f) (hls : ' ' ∉ l) :
    nameMatches (f ++ ' ' :: l) text =
      (containsSub text l && containsSub text f) := by
  have hsplit : splitOnChar ' ' (f ++ ' ' :: l) = [f, l] := by
    rw [splitOnChar_append (fun c hc h2 => hfs (by rw [← h2]; exact hc)),
      splitOnChar_no_sep (fun c hc h2 => hls (by rw [← h2]; exact hc))]
  rw [nameMatches, hsplit]
  simp [List.getLast!, List.getLast?]

/-! ## Claim theorems: the parser -/

/-- C5: for every well-formed input line `date|start|end|room TAB
name`, `parseSchedule` yields exactly one `Event` whose `date`,
`startTime`, `endTime` and `name` equal the corresponding tokens and
whose `room` equals the room code with its internal dash removed. -/
theorem C5_well_formed_line (d s e r n : List Char)
    (hd : dateShape d = true) (hs : timeShape s = true) (he : timeShape e = true)
    (hr : roomShape r = true) (hn : n ≠ []) (hnt : jsTrim n = n)
    (hnd : startsWithDate n = false) (ht : '\t' ∉ n) (hl : '\n' ∉ n) :
    parseSchedule ((d ++ '|' :: (s ++ '|' :: (e ++ '|' :: r))) ++ '\t' :: n) =
      [{ date := d, startTime := s, endTime := e,
         room := replaceFirstDash r, name := n }] :=
  parse_single_line hd hs he hr hn hnt hnd ht hl

theorem C5_well_formed_line_witness :
    parseSchedule (("2024-03-10".data ++ '|' :: ("09:00".data ++ '|' ::
        ("10:00".data ++ '|' :: "A-101".data))) ++ '\t' :: "Ivan Horvat".data) =
      [{ date := "2024-03-10".data, startTime := "09:00".data,
         endTime := "10:00".data, room := replaceFirstDash "A-101".data,
         name := "Ivan Horvat".data }] :=
  C5_well_formed_line _ _ _ _ _ (by decide) (by decide) (by decide) (by decide)
    (by decide) (by decide) (by decide) (by decide) (by decide)

/-- C6: the parser is a total function (it is defined by structural
recursion, so it terminates and raises nothing on every input); a
token that does not match the slot-header regex is skipped, a header
token with no following token yields nothing, and a header token
whose following token is blank or date-prefixed yields nothing for
that header. -/
theorem C6_malformed_skipped :
    (∀ e rest, matchHeader (jsTrim e) = none →
      parseEntries (e :: rest) = parseEntries rest) ∧
    (∀ e x, matchHeader (jsTrim e) = some x → parseEntries [e] = []) ∧
    (∀ e n rest x, matchHeader (jsTrim e) = some x →
      ((jsTrim n).isEmpty = true ∨ startsWithDate (jsTrim n) = true) →
      parseEntries (e :: n :: rest) = parseEntries (n :: rest)) :=
  ⟨fun _ _ h => parseEntries_skip h,
   fun _ _ h => parseEntries_header_alone h,
   fun _ _ _ _ h hn => parseEntries_invalid_name h hn⟩

theorem C6_malformed_skipped_witness :
    parseEntries ["junk".data, "2024-03-10|09:00|10:00|A1".data] =
      parseEntries ["2024-03-10|09:00|10:00|A1".data] :=
  C6_malformed_skipped.1 "junk".data _ (by decide)

/-- C7: two consecutive slot-header tokens with no name token between
them contribute zero events - the name lookahead refuses the second
header (it is date-prefixed), and a header at the end of the token
list yields nothing either. -/
theorem C7_consecutive_headers :
    (∀ t1 t2 rest x1 x2, matchHeader (jsTrim t1) = some x1 →
      matchHeader (jsTrim t2) = some x2 →
      parseEntries (t1 :: t2 :: rest) = parseEntries (t2 :: rest)) ∧
    (∀ t1 t2 x1 x2, matchHeader (jsTrim t1) = some x1 →
      matchHeader (jsTrim t2) = some x2 →
      parseEntries [t1, t2] = []) := by
  have key : ∀ (t1 t2 : List Char) (rest : List (List Char)) x1 x2,
      matchHeader (jsTrim t1) = some x1 → matchHeader (jsTrim t2) = some x2 →
      parseEntries (t1 :: t2 :: rest) = parseEntries (t2 :: rest) :=
    fun _ t2 _ _ _ hm1 hm2 =>
      parseEntries_invalid_name hm1 (Or.inr (startsWithDate_of_matchHeader hm2))
  refine ⟨key, fun t1 t2 x1 x2 hm1 hm2 => ?_⟩
  rw [key t1 t2 [] x1 x2 hm1 hm2]
  exact parseEntries_header_alone hm2

theorem C7_consecutive_headers_witness :
    parseEntries ["2024-03-10|09:00|10:00|A1".data,
      "2024-03-11|10:00|11:00|A2".data] = [] :=
  C7_consecutive_headers.2 _ _
    ("2024-03-10".data, "09:00".data, "10:00".data, "A1".data)
    ("2024-03-11".data, "10:00".data, "11:00".data, "A2".data)
    (by decide) (by decide)

/-- C3 counterexample: the token `2024-03-10|09:00|10:00|B-1` matches
the spec's slot-header pattern (`[A-Za-z]` room letter) and is
followed by a name token, yet the source's parser does not recognize
it and emits no event - the code's regex only accepts the letter `A`. -/
theorem C3_counterexample :
    specHeaderMatches "2024-03-10|09:00|10:00|B-1".data = true ∧
    matchHeader "2024-03-10|09:00|10:00|B-1".data = none ∧
    parseSchedule "2024-03-10|09:00|10:00|B-1\tIvan Horvat".data = [] := by
  refine ⟨by decide, by decide, by decide⟩

/-- C3 amended: the parser recognizes as a slot header exactly the
tokens whose room code starts with the capital letter `A`; a header-
shaped token with any other room letter is rejected, and an `A`-room
header followed by a name token emits one event. -/
theorem C3_room_letter :
    (∀ d s e c ds, dateShape d = true → timeShape s = true →
      timeShape e = true → (c == 'A') = false →
      matchHeader (d ++ '|' :: (s ++ '|' :: (e ++ '|' :: (c :: ds)))) = none) ∧
    (∀ d s e r n, dateShape d = true → timeShape s = true →
      timeShape e = true → roomShape r = true → n ≠ [] → jsTrim n = n →
      startsWithDate n = false → '\t' ∉ n → '\n' ∉ n →
      (parseSchedule ((d ++ '|' :: (s ++ '|' :: (e ++ '|' :: r))) ++
        '\t' :: n)).length = 1) := by
  constructor
  · intro d s e c ds hd hs he hc
    exact matchHeader_not_A hd hs he hc
  · intro d s e r n hd hs he hr hn hnt hnd ht hl
    rw [parse_single_line hd hs he hr hn hnt hnd ht hl]
    rfl

theorem C3_room_letter_witness :
    matchHeader ("2024-03-10".data ++ '|' :: ("09:00".data ++ '|' ::
      ("10:00".data ++ '|' :: ('B' :: "1".data)))) = none ∧
    (parseSchedule (("2024-03-10".data ++ '|' :: ("09:00".data ++ '|' ::
      ("10:00".data ++ '|' :: "A1".data))) ++ '\t' :: "Pero P".data)).length = 1 :=
  ⟨C3_room_letter.1 _ _ _ _ _ (by decide) (by decide) (by decide) (by decide),
   C3_room_letter.2 _ _ _ _ _ (by decide) (by decide) (by decide) (by decide)
     (by decide) (by decide) (by decide) (by decide) (by decide)⟩

/-- C10: every `Event` emitted by the parser has a room that is the
letter `A` followed only by digits (no dash), and a nonempty name
that does not begin with a `YYYY-MM-DD` date. -/
theorem C10_event_invariant (input : List Char) (ev : Event)
    (h : ev ∈ parseSchedule input) :
    (∃ ds, ds ≠ [] ∧ (∀ c ∈ ds, c.isDigit = true) ∧ ev.room = 'A' :: ds) ∧
    ev.name ≠ [] ∧ startsWithDate ev.name = false := by
  rw [parseSchedule] at h
  obtain ⟨line, _, hev⟩ := mem_foldr_parse h
  exact parseEntries_event_shape hev

theorem C10_event_invariant_witness :
    (∃ ds, ds ≠ [] ∧ (∀ c ∈ ds, c.isDigit = true) ∧
      ("A101".data : List Char) = 'A' :: ds) ∧
    ("Ivan Horvat".data : List Char) ≠ [] ∧
    startsWithDate "Ivan Horvat".data = false :=
  C10_event_invariant "2024-03-10|09:00|10:00|A-101\tIvan Horvat".data
    { date := "2024-03-10".data, startTime := "09:00".data,
      endTime := "10:00".data, room := "A101".data,
      name := "Ivan Horvat".data } (by decide)

/-! ## Claim theorems: the name-matching heuristic -/

/-- C8: for a two-part name the heuristic matches an entry text iff
the text contains both the first part and the last part as
substrings, independently of order; in particular `Ivan Horvat`
matches `Horvat, Ivan` and `Ivan Horvat` but not `Ivan Novak`. -/
theorem C8_name_matching :
    (∀ f l text : List Char, f ≠ [] → l ≠ [] → ' ' ∉ f → ' ' ∉ l →
      nameMatches (f ++ ' ' :: l) text =
        (containsSub text l && containsSub text f)) ∧
    nameMatches "Ivan Horvat".data "Horvat, Ivan".data = true ∧
    nameMatches "Ivan Horvat".data "Ivan Horvat".data = true ∧
    nameMatches "Ivan Horvat".data "Ivan Novak".data = false :=
  ⟨fun _ _ _ hf hl hfs hls => nameMatches_two_parts hf hl hfs hls,
   by decide, by decide, by decide⟩

theorem C8_name_matching_witness :
    nameMatches ("Ana".data ++ ' ' :: "Anić".data) "Anić, Ana".data =
      (containsSub "Anić, Ana".data "Anić".data &&
        containsSub "Anić, Ana".data "Ana".data) :=
  C8_name_matching.1 "Ana".data "Anić".data "Anić, Ana".data
    (by decide) (by decide) (by decide) (by decide)

/-! ## Claim theorems: the slot locator -/

/-- C2 counterexample: with two elements containing the slot pattern,
the first without an add control and the second with one, the spec
says the locator inspects only the first (returning not-found), but
the source's loop moves on and returns the second element's control. -/
theorem C2_counterexample :
    (containsSub (Div.text ⟨patternOf ⟨"2024-03-10".data, "09:00".data,
        "10:00".data, "A1".data, "Ana Anić".data⟩, none⟩)
      (patternOf ⟨"2024-03-10".data, "09:00".data, "10:00".data,
        "A1".data, "Ana Anić".data⟩) = true ∧
      Div.addControl ⟨patternOf ⟨"2024-03-10".data, "09:00".data,
        "10:00".data, "A1".data, "Ana Anić".data⟩, none⟩ = none) ∧
    findMatchingDiv (some
      [⟨patternOf ⟨"2024-03-10".data, "09:00".data, "10:00".data,
         "A1".data, "Ana Anić".data⟩, none⟩,
       ⟨patternOf ⟨"2024-03-10".data, "09:00".data, "10:00".data,
         "A1".data, "Ana Anić".data⟩, some ⟨[]⟩⟩])
      ⟨"2024-03-10".data, "09:00".data, "10:00".data,
        "A1".data, "Ana Anić".data⟩ = some ⟨[]⟩ ∧
    scanDivsSpec
      [⟨patternOf ⟨"2024-03-10".data, "09:00".data, "10:00".data,
         "A1".data, "Ana Anić".data⟩, none⟩,
       ⟨patternOf ⟨"2024-03-10".data, "09:00".data, "10:00".data,
         "A1".data, "Ana Anić".data⟩, some ⟨[]⟩⟩]
      (patternOf ⟨"2024-03-10".data, "09:00".data, "10:00".data,
        "A1".data, "Ana Anić".data⟩) = none := by
  refine ⟨⟨by decide, rfl⟩, by decide, by decide⟩

/-- C2 amended: the locator returns the add control of the first
element (in document order) that both contains the pattern substring
and has a nested add control; matching elements without an add
control are skipped, and not-found results only when no element with
the substring carries an add control. -/
theorem C2_first_with_control (divs : List Div) (ev : Event) :
    findMatchingDiv (some divs) ev =
      (divs.find? (fun d =>
        containsSub d.text (patternOf ev) && d.addControl.isSome)).bind
        Div.addControl := by
  show scanDivs divs (patternOf ev) = _
  induction divs with
  | nil => rfl
  | cons d rest ih =>
    by_cases hct : containsSub d.text (patternOf ev) = true
    · rcases hac : d.addControl with _ | slot
      · have hfind : List.find? (fun d => containsSub d.text (patternOf ev) &&
            d.addControl.isSome) (d :: rest) =
            List.find? (fun d => containsSub d.text (patternOf ev) &&
              d.addControl.isSome) rest := by
          apply List.find?_cons_of_neg
          simp [hct, hac]
        rw [hfind]
        simp [scanDivs, hct, hac, ih]
      · have hfind : List.find? (fun d => containsSub d.text (patternOf ev) &&
            d.addControl.isSome) (d :: rest) = some d := by
          apply List.find?_cons_of_pos
          simp [hct, hac]
        rw [hfind]
        simp [scanDivs, hct, hac]
    · have hfind : List.find? (fun d => containsSub d.text (patternOf ev) &&
          d.addControl.isSome) (d :: rest) =
          List.find? (fun d => containsSub d.text (patternOf ev) &&
            d.addControl.isSome) rest := by
        apply List.find?_cons_of_neg
        simp [hct]
      rw [hfind]
      simp [scanDivs, hct, ih]

/-! ## Batch-processor lemmas -/

theorem outcomeLists_addOutcome (s : List Char) (out : Outcome) (r : Results) :
    (outcomeLists (addOutcome s out r)).Perm (s :: outcomeLists r) := by
  cases out with
  | success =>
    simp only [outcomeLists, addOutcome, List.append_assoc, List.cons_append]
    exact List.Perm.refl _
  | alreadyAssigned =>
    simp only [outcomeLists, addOutcome, List.append_assoc, List.cons_append]
    exact List.perm_middle
  | slotNotFound =>
    simp only [outcomeLists, addOutcome, List.append_assoc, List.cons_append]
    exact (List.Perm.append_left _ List.perm_middle).trans List.perm_middle
  | personNotFound =>
    simp only [outcomeLists, addOutcome, List.append_assoc, List.cons_append]
    exact (List.Perm.append_left _ ((List.Perm.append_left _
      List.perm_middle).trans List.perm_middle)).trans List.perm_middle
  | error msg =>
    simp only [outcomeLists, addOutcome, List.append_assoc, List.cons_append,
      List.map_cons]
    exact (List.Perm.append_left _ ((List.Perm.append_left _
      ((List.Perm.append_left _ List.perm_middle).trans
        List.perm_middle)).trans List.perm_middle)).trans List.perm_middle

/-- The report entries are exactly the processed events' descriptions,
one per event. -/
theorem processEvents_perm (env : Nat → EventEnv) (events : List Event) (i : Nat) :
    (outcomeLists (processEvents env events i)).Perm (events.map eventStr) := by
  induction events generalizing i with
  | nil => simp [processEvents, outcomeLists, Results.empty]
  | cons ev rest ih =>
    simp only [processEvents, List.map_cons]
    exact (outcomeLists_addOutcome _ _ _).trans ((ih (i + 1)).cons (eventStr ev))

theorem buckets_pairwise_disjoint {r : Results}
    (h : (outcomeLists r).Nodup) :
    List.Pairwise List.Disjoint (buckets r) := by
  obtain ⟨suc, a, b, c, e⟩ := r
  simp only [outcomeLists] at h
  simp only [List.nodup_append, List.disjoint_append_left] at h
  simp only [buckets, List.pairwise_cons, List.mem_cons, List.not_mem_nil, or_false]
  obtain ⟨⟨⟨⟨hn1, hn2, hdsa⟩, hn3, hdsb, hdab⟩, hn4, ⟨hdsc, hdac⟩, hdbc⟩,
    hn5, ⟨⟨hdse, hdae⟩, hdbe⟩, hdce⟩ := h
  refine ⟨?_, ?_, ?_, ?_, by simp⟩
  · intro x hx
    rcases hx with rfl | rfl | rfl | rfl
    exacts [hdsa, hdsb, hdsc, hdse]
  · intro x hx
    rcases hx with rfl | rfl | rfl
    exacts [hdab, hdac, hdae]
  · intro x hx
    rcases hx with rfl | rfl
    exacts [hdbc, hdbe]
  · intro x hx
    rcases hx with rfl
    exact hdce

theorem waitSucceeds_false {cond : Nat → Bool} {interval timeout : Nat}
    (h : ∀ k, 1 ≤ k → k ≤ pollTicks interval timeout → cond k = false) :
    waitSucceeds cond interval timeout = false := by
  rw [waitSucceeds, List.any_eq_false]
  intro j hj
  rw [h (j + 1) (by omega) (by have := List.mem_range.mp hj; omega)]
  simp

theorem processOne_slotNotFound {env : EventEnv} {i : Nat} {ev : Event}
    (h : findMatchingDiv env.editor ev = none) :
    processOne env i ev = (Outcome.slotNotFound, [Action.locate i]) := by
  rw [processOne, h]

theorem processOne_dialogTimeout {env : EventEnv} {i : Nat} {ev : Event} {slot : Slot}
    (h1 : findMatchingDiv env.editor ev = some slot)
    (h2 : isPersonAlreadyAssigned slot ev.name = false)
    (h3 : waitForDialog env.dialogVisible = false) :
    processOne env i ev = (Outcome.error dialogTimeoutMsg,
      [Action.locate i, Action.checkAssigned i, Action.clickAdd i,
       Action.waitOpen i]) := by
  rw [processOne, h1]
  dsimp only
  rw [h2, h3]
  simp

theorem processEvents_cons (env : Nat → EventEnv) (ev : Event)
    (rest : List Event) (i : Nat) :
    processEvents env (ev :: rest) i =
      addOutcome (eventStr ev) (processOne (env i) i ev).1
        (processEvents env rest (i + 1)) := rfl

theorem processTrace_cons (env : Nat → EventEnv) (ev : Event)
    (rest : List Event) (i : Nat) :
    processTrace env (ev :: rest) i =
      (processOne (env i) i ev).2 ++ processTrace env rest (i + 1) := rfl

/-! ## Claim theorems: the batch processor -/

/-- C1 counterexample: the batch `[ev, ev]` (the same slot pasted
twice) against a surface where the first fill succeeds and the
second then finds the person already listed places the one
description in both the `success` and the `alreadyAssigned`
sequences, so a description does appear in more than one of the five
sequences (the per-event classification is still unique - see the
amended theorem). -/
theorem C1_counterexample :
    let ev : Event := ⟨"2024-03-10".data, "09:00".data, "10:00".data,
      "A1".data, "Ana Anić".data⟩
    let env : Nat → EventEnv := fun i =>
      if i = 0 then
        ⟨some [⟨patternOf ⟨"2024-03-10".data, "09:00".data, "10:00".data,
          "A1".data, "Ana Anić".data⟩, some ⟨[some []]⟩⟩],
         fun _ => true, some ["Anić, Ana".data], fun _ => true⟩
      else
        ⟨some [⟨patternOf ⟨"2024-03-10".data, "09:00".data, "10:00".data,
          "A1".data, "Ana Anić".data⟩, some ⟨[some ["Anić, Ana".data]]⟩⟩],
         fun _ => true, some ["Anić, Ana".data], fun _ => true⟩
    eventStr ev ∈ (processEvents env [ev, ev] 0).success ∧
    eventStr ev ∈ (processEvents env [ev, ev] 0).alreadyAssigned := by
  constructor <;> decide

/-- C1 amended: for `N` input events the five report sequences'
total length is exactly `N`, and their entries are exactly the `N`
event descriptions, one per input event (a permutation); when the
input events' descriptions are pairwise distinct, no description
appears in more than one of the five sequences.  (Duplicate input
events share a description and may legitimately land in two
different sequences, as the counterexample shows.) -/
theorem C1_report_partition (env : Nat → EventEnv) (events : List Event) :
    (outcomeLists (processEvents env events 0)).length = events.length ∧
    (outcomeLists (processEvents env events 0)).Perm (events.map eventStr) ∧
    ((events.map eventStr).Nodup →
      List.Pairwise List.Disjoint (buckets (processEvents env events 0))) := by
  have hperm := processEvents_perm env events 0
  refine ⟨by rw [hperm.length_eq, List.length_map], hperm, fun hnd => ?_⟩
  exact buckets_pairwise_disjoint (hperm.nodup_iff.mpr hnd)

theorem C1_report_partition_witness :
    List.Pairwise List.Disjoint (buckets (processEvents
      (fun _ => ⟨none, fun _ => false, none, fun _ => false⟩)
      [⟨"2024-03-10".data, "09:00".data, "10:00".data, "A1".data,
        "Ana Anić".data⟩] 0)) :=
  (C1_report_partition (fun _ => ⟨none, fun _ => false, none, fun _ => false⟩)
    [⟨"2024-03-10".data, "09:00".data, "10:00".data, "A1".data,
      "Ana Anić".data⟩]).2.2 (by decide)

/-- C4: when the located slot is free but the dialog never becomes
present-and-visible at any poll tick within the 5000 ms open timeout,
the event is classified as an error carrying the `Dialog timeout`
message, and the batch continues: the remaining events' report is
unchanged. -/
theorem C4_dialog_timeout (env : Nat → EventEnv) (rest : List Event)
    (ev : Event) (i : Nat) (slot : Slot)
    (hloc : findMatchingDiv (env i).editor ev = some slot)
    (hass : isPersonAlreadyAssigned slot ev.name = false)
    (hvis : ∀ k, 1 ≤ k → k ≤ pollTicks 100 5000 →
      (env i).dialogVisible k = false) :
    processOne (env i) i ev = (Outcome.error dialogTimeoutMsg,
      [Action.locate i, Action.checkAssigned i, Action.clickAdd i,
       Action.waitOpen i]) ∧
    processEvents env (ev :: rest) i =
      addOutcome (eventStr ev) (Outcome.error dialogTimeoutMsg)
        (processEvents env rest (i + 1)) := by
  have h1 := @processOne_dialogTimeout (env i) i ev slot hloc hass (waitSucceeds_false hvis)
  refine ⟨h1, ?_⟩
  rw [processEvents_cons, h1]

theorem C4_dialog_timeout_witness :
    processOne ⟨some [⟨patternOf ⟨"2024-03-10".data, "09:00".data,
        "10:00".data, "A1".data, "Ana Anić".data⟩, some ⟨[some []]⟩⟩],
      fun _ => false, none, fun _ => false⟩ 0
      ⟨"2024-03-10".data, "09:00".data, "10:00".data, "A1".data,
        "Ana Anić".data⟩ =
      (Outcome.error dialogTimeoutMsg,
        [Action.locate 0, Action.checkAssigned 0, Action.clickAdd 0,
         Action.waitOpen 0]) :=
  (C4_dialog_timeout
    (fun _ => ⟨some [⟨patternOf ⟨"2024-03-10".data, "09:00".data,
        "10:00".data, "A1".data, "Ana Anić".data⟩, some ⟨[some []]⟩⟩],
      fun _ => false, none, fun _ => false⟩)
    [] ⟨"2024-03-10".data, "09:00".data, "10:00".data, "A1".data,
      "Ana Anić".data⟩ 0 ⟨[some []]⟩
    (by decide) (by decide) (fun _ _ _ => rfl)).1

/-- C9: when the locator finds no slot for an event, the event is
classified `SlotNotFound`, the remaining events' report is unchanged,
and the event's whole interaction trace is the single locate query -
no add control is clicked, the assignment checker is not consulted,
and no dialog wait or dialog search ever runs for it. -/
theorem C9_slot_not_found (env : Nat → EventEnv) (rest : List Event)
    (ev : Event) (i : Nat)
    (hloc : findMatchingDiv (env i).editor ev = none) :
    processOne (env i) i ev = (Outcome.slotNotFound, [Action.locate i]) ∧
    processEvents env (ev :: rest) i =
      addOutcome (eventStr ev) Outcome.slotNotFound
        (processEvents env rest (i + 1)) ∧
    processTrace env (ev :: rest) i =
      Action.locate i :: processTrace env rest (i + 1) := by
  have h1 := @processOne_slotNotFound (env i) i ev hloc
  refine ⟨h1, ?_, ?_⟩
  · rw [processEvents_cons, h1]
  · rw [processTrace_cons, h1]
    rfl

theorem C9_slot_not_found_witness :
    processOne ⟨some [], fun _ => false, none, fun _ => false⟩ 0
      ⟨"2024-03-10".data, "09:00".data, "10:00".data, "A1".data,
        "Ana Anić".data⟩ = (Outcome.slotNotFound, [Action.locate 0]) :=
  (C9_slot_not_found (fun _ => ⟨some [], fun _ => false, none, fun _ => false⟩)
    [] ⟨"2024-03-10".data, "09:00".data, "10:00".data, "A1".data,
      "Ana Anić".data⟩ 0 (by decide)).1

end Ferko
